import Mathlib

/-!
# SPSC ring buffer of the order management system

A shallow embedding of `include/common/spsc_queue.hpp` (the class template
`SPSCQueue<T, Capacity>` and the free function `is_power_of_two`) and of the
record type of `include/common/order.hpp`, followed by theorems about them.

Conventions of the embedding.

* `size_t` is the 64-bit unsigned type: a `size_t` value is a natural number
  below `SIZE_MOD = 2 ^ 64`, and `+` / `-` on `size_t` are taken modulo
  `SIZE_MOD` where the source computes them.
* `buffer_` is the slot array seen as a function from slot index to record;
  the `Capacity` slots of the C++ array are the indices below `Capacity`.
* The atomic loads and stores are modelled by plain reads and writes of the
  fields: every definition below describes one whole call running alone.
* The prefetch hints have no effect on the state and are left out of `push`
  and `pop`; the addresses they form are listed by `push_slots` and `pop_slots`.
-/

namespace OMS

/-! ## Machine integers -/

/-- Number of values of the 64-bit type `size_t`. -/
def SIZE_MOD : Nat := 2 ^ 64

/-- Addition on `size_t`. -/
def size_add (a b : Nat) : Nat := (a + b) % SIZE_MOD

/-- Subtraction on `size_t` (wraps around below zero). -/
def size_sub (a b : Nat) : Nat := (a + (SIZE_MOD - b % SIZE_MOD)) % SIZE_MOD

/-! ## `is_power_of_two` -/

/-- The source function `is_power_of_two`: `return x && !(x & (x - 1));`. -/
def is_power_of_two (x : Nat) : Bool :=
  (x != 0) && !((x &&& size_sub x 1) != 0)

/-! ## The queue -/

/-- State of an `SPSCQueue<T, Capacity>`: the slot array and the two indices. -/
structure SPSCQueue (T : Type) (Capacity : Nat) where
  /-- Slot array `buffer_`. -/
  buffer_ : Nat → T
  /-- Index of the next slot to read. -/
  head_ : Nat
  /-- Index of the next slot to write. -/
  tail_ : Nat

namespace SPSCQueue

variable {T : Type} {Capacity : Nat}

/-- The constant `index_mask = Capacity - 1`, computed on `size_t`. -/
def index_mask (Capacity : Nat) : Nat := size_sub Capacity 1

/-- A newly constructed queue: `head_{0}`, `tail_{0}`; the default constructor
does not initialise the slots, so their initial contents `init` are arbitrary. -/
def new (init : Nat → T) : SPSCQueue T Capacity :=
  { buffer_ := init, head_ := 0, tail_ := 0 }

/-- The member function `push`: the returned flag and the state after the call. -/
def push (q : SPSCQueue T Capacity) (item : T) : Bool × SPSCQueue T Capacity :=
  let local_tail := q.tail_
  let next_tail := size_add local_tail 1 &&& index_mask Capacity
  if next_tail = q.head_ then
    (false, q)
  else
    (true, { q with buffer_ := Function.update q.buffer_ local_tail item,
                    tail_ := next_tail })

/-- The member function `pop`: the returned optional and the state after the call. -/
def pop (q : SPSCQueue T Capacity) : Option T × SPSCQueue T Capacity :=
  let local_head := q.head_
  if local_head = q.tail_ then
    (none, q)
  else
    let item := q.buffer_ local_head
    (some item, { q with head_ := size_add local_head 1 &&& index_mask Capacity })

/-- The member function `empty`. -/
def empty (q : SPSCQueue T Capacity) : Bool :=
  q.head_ == q.tail_

/-- The member function `full`. -/
def full (q : SPSCQueue T Capacity) : Bool :=
  (size_add q.tail_ 1 &&& index_mask Capacity) == q.head_

/-- The member function `size`. -/
def size (q : SPSCQueue T Capacity) : Nat :=
  let h := q.head_
  let t := q.tail_
  size_sub t h &&& index_mask Capacity

/-- The indices at which a call of `push` addresses `buffer_`, in program
order: none when the call returns at the full check, otherwise the prefetched
`buffer_[next_tail]` and the written `buffer_[local_tail]`. -/
def push_slots (q : SPSCQueue T Capacity) : List Nat :=
  let local_tail := q.tail_
  let next_tail := size_add local_tail 1 &&& index_mask Capacity
  if next_tail = q.head_ then [] else [next_tail, local_tail]

/-- The indices at which a call of `pop` addresses `buffer_`, in program order:
none when the call returns at the empty check, otherwise the prefetched
`buffer_[(local_head + 1) & index_mask]` and the read `buffer_[local_head]`. -/
def pop_slots (q : SPSCQueue T Capacity) : List Nat :=
  let local_head := q.head_
  if local_head = q.tail_ then []
  else [size_add local_head 1 &&& index_mask Capacity, local_head]

/-! ## Specification vocabulary -/

/-- Both indices are stored pre-masked. -/
def WF (q : SPSCQueue T Capacity) : Prop :=
  q.head_ < Capacity ∧ q.tail_ < Capacity

/-- The records held by the queue, oldest first: the slots from `head_` up to
but excluding `tail_`, going round the ring. -/
def contents (q : SPSCQueue T Capacity) : List T :=
  (List.range (size q)).map (fun i => q.buffer_ ((q.head_ + i) % Capacity))

end SPSCQueue

/-- The capacities the class template accepts: `size_t` values passing the
`static_assert(is_power_of_two(Capacity))`. -/
def Accepted (Capacity : Nat) : Prop :=
  Capacity < SIZE_MOD ∧ is_power_of_two Capacity = true

instance (Capacity : Nat) : Decidable (Accepted Capacity) := by
  unfold Accepted
  infer_instance

/-! ## Sequences of whole calls -/

/-- A call of one of the two mutating member functions. -/
inductive Op (T : Type) where
  | push (item : T)
  | pop

/-- What a call of a mutating member function returned. -/
inductive OpResult (T : Type) where
  | pushed (ok : Bool)
  | popped (item : Option T)

/-- A call of one of the three query member functions. -/
inductive Query where
  | empty
  | full
  | size

/-- What a query returned. -/
inductive QueryResult where
  | flag (b : Bool)
  | count (n : Nat)

/-- Any call of the public interface. -/
inductive Call (T : Type) where
  | op (o : Op T)
  | query (k : Query)

/-- What a call of the public interface returned. -/
inductive CallResult (T : Type) where
  | op (r : OpResult T)
  | query (r : QueryResult)

section Runs

variable {T : Type} {Capacity : Nat}

/-- Run one mutating call. -/
def exec (q : SPSCQueue T Capacity) : Op T → OpResult T × SPSCQueue T Capacity
  | Op.push item => (OpResult.pushed (q.push item).1, (q.push item).2)
  | Op.pop => (OpResult.popped q.pop.1, q.pop.2)

/-- Run a sequence of mutating calls one at a time: the results in call order
and the final state. -/
def runOps (q : SPSCQueue T Capacity) : List (Op T) → List (OpResult T) × SPSCQueue T Capacity
  | [] => ([], q)
  | o :: os => ((exec q o).1 :: (runOps (exec q o).2 os).1, (runOps (exec q o).2 os).2)

/-- Run one query: its result and the state after it, which the `const` member
function leaves as it found it. -/
def ask (q : SPSCQueue T Capacity) : Query → QueryResult × SPSCQueue T Capacity
  | Query.empty => (QueryResult.flag q.empty, q)
  | Query.full => (QueryResult.flag q.full, q)
  | Query.size => (QueryResult.count q.size, q)

/-- Run one call of the public interface. -/
def call (q : SPSCQueue T Capacity) : Call T → CallResult T × SPSCQueue T Capacity
  | Call.op o => (CallResult.op (exec q o).1, (exec q o).2)
  | Call.query k => (CallResult.query (ask q k).1, (ask q k).2)

/-- Run a sequence of calls of the public interface one at a time. -/
def runCalls (q : SPSCQueue T Capacity) :
    List (Call T) → List (CallResult T) × SPSCQueue T Capacity
  | [] => ([], q)
  | c :: cs => ((call q c).1 :: (runCalls (call q c).2 cs).1, (runCalls (call q c).2 cs).2)

/-- The mutating calls of a call sequence, in order. -/
def opsOf : List (Call T) → List (Op T)
  | [] => []
  | Call.op o :: cs => o :: opsOf cs
  | Call.query _ :: cs => opsOf cs

/-- The results of the mutating calls among the results of a call sequence. -/
def opResultsOf : List (CallResult T) → List (OpResult T)
  | [] => []
  | CallResult.op r :: rs => r :: opResultsOf rs
  | CallResult.query _ :: rs => opResultsOf rs

/-- The values whose push returned `true`, in call order. -/
def pushedValues : List (Op T) → List (OpResult T) → List T
  | Op.push item :: os, OpResult.pushed true :: rs => item :: pushedValues os rs
  | _ :: os, _ :: rs => pushedValues os rs
  | _, _ => []

/-- The values returned by the successful pops, in call order. -/
def poppedValues : List (OpResult T) → List T
  | OpResult.popped (some item) :: rs => item :: poppedValues rs
  | _ :: rs => poppedValues rs
  | [] => []

/-- Number of pushes that returned `true`. -/
def pushCount : List (OpResult T) → Nat
  | OpResult.pushed true :: rs => pushCount rs + 1
  | _ :: rs => pushCount rs
  | [] => 0

/-- Number of pops that returned a value. -/
def popCount : List (OpResult T) → Nat
  | OpResult.popped (some _) :: rs => popCount rs + 1
  | _ :: rs => popCount rs
  | [] => 0

/-- The states reached from a newly constructed queue by a finite sequence of
whole push and pop calls. -/
def Reachable (q : SPSCQueue T Capacity) : Prop :=
  ∃ (init : Nat → T) (ops : List (Op T)), q = (runOps (SPSCQueue.new init) ops).2

end Runs

/-! ## The record type of `order.hpp` -/

/-- The enumeration `Side`. -/
inductive Side where
  | BUY
  | SELL
  deriving DecidableEq

/-- The enumeration `OrderType`. -/
inductive OrderType where
  | LIMIT
  | MARKET
  deriving DecidableEq

/-- The packed record `Order`. `symbol` is the eight bytes of `char symbol[8]`
and `price` the 64-bit pattern of the `double`, so that equality of two
records is equality of their representations. -/
structure Order where
  symbol : List Nat
  order_id : Nat
  side : Side
  order_type : OrderType
  price : Nat
  quantity : Nat
  deriving DecidableEq

/-- The record `buy_order` of the test `Order creation and processing`:
symbol `AAPL`, id 12345, `BUY`, `LIMIT`, price 150.25, quantity 100. -/
def buy_order : Order :=
  { symbol := [65, 65, 80, 76, 0, 0, 0, 0], order_id := 12345, side := Side.BUY,
    order_type := OrderType.LIMIT, price := 4639490468470587392, quantity := 100 }

/-- The first record of the test `Multiple orders`: symbol `GOOGL`, id 1,
`SELL`, `MARKET`, price 2500.0, quantity 50. -/
def sell_order : Order :=
  { symbol := [71, 79, 79, 71, 76, 0, 0, 0], order_id := 1, side := Side.SELL,
    order_type := OrderType.MARKET, price := 4657715973212602368, quantity := 50 }

/-- A record of zero bytes. -/
def zero_order : Order :=
  { symbol := [0, 0, 0, 0, 0, 0, 0, 0], order_id := 0, side := Side.BUY,
    order_type := OrderType.LIMIT, price := 0, quantity := 0 }

/-- An `SPSCQueue<Order, 16>` after one record went through it: it is empty
again and `head_` is `1`. -/
def used_order_queue : SPSCQueue Order 16 :=
  (runOps (SPSCQueue.new (fun _ => zero_order)) [Op.push sell_order, Op.pop]).2

/-! ## Arithmetic of the index mask -/

theorem size_sub_one {x : Nat} (h0 : 0 < x) (hx : x < SIZE_MOD) : size_sub x 1 = x - 1 := by
  unfold size_sub SIZE_MOD at *
  omega

theorem size_add_one {x : Nat} (hx : x + 1 < SIZE_MOD) : size_add x 1 = x + 1 := by
  unfold size_add
  exact Nat.mod_eq_of_lt hx

theorem and_pred_two_pow (k : Nat) : 2 ^ k &&& (2 ^ k - 1) = 0 := by
  rw [Nat.and_pow_two_sub_one_eq_mod]
  simp

theorem two_pow_of_and_pred :
    ∀ x : Nat, 0 < x → x &&& (x - 1) = 0 → ∃ k, x = 2 ^ k := by
  intro x
  induction x using Nat.strong_induction_on with
  | _ x ih =>
    intro hx h
    rcases Nat.even_or_odd' x with ⟨y, rfl | rfl⟩
    · have hy : 0 < y := by omega
      have h2 : (2 * y &&& (2 * y - 1)) / 2 = 0 := by rw [h]
      rw [Nat.and_div_two] at h2
      have e1 : 2 * y / 2 = y := by omega
      have e2 : (2 * y - 1) / 2 = y - 1 := by omega
      rw [e1, e2] at h2
      obtain ⟨k, hk⟩ := ih y (by omega) hy h2
      exact ⟨k + 1, by rw [hk, pow_succ]; ring⟩
    · have h2 : ((2 * y + 1) &&& (2 * y + 1 - 1)) / 2 = 0 := by rw [h]
      rw [Nat.and_div_two] at h2
      have e1 : (2 * y + 1) / 2 = y := by omega
      have e2 : (2 * y + 1 - 1) / 2 = y := by omega
      rw [e1, e2, Nat.and_self] at h2
      exact ⟨0, by simp [h2]⟩

theorem is_power_of_two_iff {x : Nat} (hx : x < SIZE_MOD) :
    is_power_of_two x = true ↔ ∃ k, x = 2 ^ k := by
  unfold is_power_of_two
  rcases Nat.eq_zero_or_pos x with rfl | h0
  · constructor
    · intro h
      simp at h
    · rintro ⟨k, hk⟩
      exact absurd hk.symm (by positivity)
  · rw [size_sub_one h0 hx]
    have hne : (x != 0) = true := by simpa using Nat.pos_iff_ne_zero.mp h0
    constructor
    · intro h
      apply two_pow_of_and_pred x h0
      simpa [hne] using h
    · rintro ⟨k, rfl⟩
      simp [and_pred_two_pow]

theorem two_pow_lt_size_mod {k : Nat} (h : 2 ^ k < SIZE_MOD) : k < 64 := by
  unfold SIZE_MOD at h
  exact (Nat.pow_lt_pow_iff_right (by norm_num)).mp h

theorem Accepted.exists_pow {Capacity : Nat} (h : Accepted Capacity) :
    ∃ k, k < 64 ∧ Capacity = 2 ^ k := by
  obtain ⟨k, rfl⟩ := (is_power_of_two_iff h.1).mp h.2
  exact ⟨k, two_pow_lt_size_mod h.1, rfl⟩

theorem Accepted.pos {Capacity : Nat} (h : Accepted Capacity) : 0 < Capacity := by
  obtain ⟨k, -, rfl⟩ := h.exists_pow
  positivity

namespace SPSCQueue

variable {T : Type} {Capacity : Nat}

theorem index_mask_eq (h : Accepted Capacity) : index_mask Capacity = Capacity - 1 :=
  size_sub_one h.pos h.1

/-- Masking the successor of an in-range index is the successor modulo `Capacity`. -/
theorem succ_and_mask (h : Accepted Capacity) {i : Nat} (hi : i < Capacity) :
    size_add i 1 &&& index_mask Capacity = (i + 1) % Capacity := by
  rw [index_mask_eq h]
  obtain ⟨k, hk, rfl⟩ := h.exists_pow
  have hlt : 2 ^ k < SIZE_MOD := h.1
  rw [size_add_one (by omega), Nat.and_pow_two_sub_one_eq_mod]

/-- The masked difference of two in-range indices is the ring distance. -/
theorem sub_and_mask (h : Accepted Capacity) {a b : Nat} (ha : a < Capacity)
    (hb : b < Capacity) :
    size_sub a b &&& index_mask Capacity = (a + (Capacity - b)) % Capacity := by
  rw [index_mask_eq h]
  obtain ⟨k, hk, rfl⟩ := h.exists_pow
  have hlt : 2 ^ k < SIZE_MOD := h.1
  rw [Nat.and_pow_two_sub_one_eq_mod]
  unfold size_sub
  rw [Nat.mod_eq_of_lt (lt_trans hb hlt)]
  have hdvd : 2 ^ k ∣ SIZE_MOD := by
    unfold SIZE_MOD
    exact Nat.pow_dvd_pow 2 hk.le
  rw [Nat.mod_mod_of_dvd _ hdvd]
  obtain ⟨m, hm⟩ := hdvd
  have hpos : 0 < 2 ^ k := by positivity
  have hm1 : 1 ≤ m := by
    rcases Nat.eq_zero_or_pos m with rfl | hmp
    · simp [SIZE_MOD] at hm
    · exact hmp
  obtain ⟨m, rfl⟩ : ∃ n, m = n + 1 := ⟨m - 1, by omega⟩
  have : a + (SIZE_MOD - b) = a + (2 ^ k - b) + 2 ^ k * m := by
    rw [hm]
    have : 2 ^ k * (m + 1) = 2 ^ k * m + 2 ^ k := by ring
    omega
  rw [this, Nat.add_mul_mod_self_left]

theorem mod_of_lt_two_mul {a C : Nat} (h : a < 2 * C) :
    a % C = if a < C then a else a - C := by
  split
  · exact Nat.mod_eq_of_lt ‹_›
  · rw [Nat.mod_eq_sub_mod (by omega), Nat.mod_eq_of_lt (by omega)]

theorem wf_new (h : Accepted Capacity) (init : Nat → T) :
    WF (new init : SPSCQueue T Capacity) :=
  ⟨h.pos, h.pos⟩

theorem size_eq (h : Accepted Capacity) {q : SPSCQueue T Capacity} (wf : WF q) :
    size q = if q.head_ ≤ q.tail_ then q.tail_ - q.head_
      else q.tail_ + Capacity - q.head_ := by
  unfold size
  simp only []
  rw [sub_and_mask h wf.2 wf.1, mod_of_lt_two_mul (by have := wf.1; have := wf.2; omega)]
  have := wf.1
  have := wf.2
  split <;> split <;> omega

theorem size_lt (h : Accepted Capacity) {q : SPSCQueue T Capacity} (wf : WF q) :
    size q < Capacity := by
  rw [size_eq h wf]
  have := wf.1
  have := wf.2
  split <;> omega

theorem empty_iff_size (h : Accepted Capacity) {q : SPSCQueue T Capacity} (wf : WF q) :
    empty q = true ↔ size q = 0 := by
  rw [size_eq h wf]
  unfold empty
  have := wf.1
  have := wf.2
  simp only [beq_iff_eq]
  split <;> omega

theorem full_iff_size (h : Accepted Capacity) {q : SPSCQueue T Capacity} (wf : WF q) :
    full q = true ↔ size q = Capacity - 1 := by
  rw [size_eq h wf]
  unfold full
  rw [succ_and_mask h wf.2, mod_of_lt_two_mul (by have := wf.2; omega)]
  have := wf.1
  have := wf.2
  simp only [beq_iff_eq]
  split <;> split <;> omega

theorem push_full {q : SPSCQueue T Capacity} (hf : full q = true) (item : T) :
    push q item = (false, q) := by
  unfold full at hf
  unfold push
  simp only [beq_iff_eq] at hf
  simp [hf]

theorem pop_empty {q : SPSCQueue T Capacity} (he : empty q = true) :
    pop q = (none, q) := by
  unfold empty at he
  unfold pop
  simp only [beq_iff_eq] at he
  simp [he]

/-- Masking the successor of any `size_t` value is the successor modulo
`Capacity`: the wraparound at `2 ^ 64` is invisible because `Capacity` divides it. -/
theorem succ_and_mask_any (h : Accepted Capacity) (i : Nat) :
    size_add i 1 &&& index_mask Capacity = (i + 1) % Capacity := by
  rw [index_mask_eq h]
  obtain ⟨k, hk, rfl⟩ := h.exists_pow
  rw [Nat.and_pow_two_sub_one_eq_mod]
  unfold size_add SIZE_MOD
  exact Nat.mod_mod_of_dvd _ (Nat.pow_dvd_pow 2 hk.le)

/-- The masked successor of an in-range index, by cases. -/
theorem succ_and_mask_cases (h : Accepted Capacity) {i : Nat} (hi : i < Capacity) :
    size_add i 1 &&& index_mask Capacity = if i + 1 < Capacity then i + 1 else 0 := by
  rw [succ_and_mask h hi, mod_of_lt_two_mul (by omega)]
  split <;> omega

/-- Effect of a push on a queue that is not full. -/
theorem push_not_full (h : Accepted Capacity) {q : SPSCQueue T Capacity} (wf : WF q)
    (hf : full q = false) (item : T) :
    (push q item).1 = true ∧ WF (push q item).2 ∧
      size (push q item).2 = size q + 1 ∧
      contents (push q item).2 = contents q ++ [item] := by
  have hC := h.pos
  have h1 := wf.1
  have h2 := wf.2
  have hs := size_eq h wf
  have hne : ¬ (size_add q.tail_ 1 &&& index_mask Capacity) = q.head_ := by
    unfold full at hf
    simpa using hf
  have hpush : push q item = (true, { q with
      buffer_ := Function.update q.buffer_ q.tail_ item,
      tail_ := size_add q.tail_ 1 &&& index_mask Capacity }) := by
    unfold push
    simp [hne]
  have ht := succ_and_mask_cases h h2
  generalize size_add q.tail_ 1 &&& index_mask Capacity = t at hne hpush ht
  rw [hpush]
  have wf2 : WF ({ q with buffer_ := Function.update q.buffer_ q.tail_ item, tail_ := t } :
      SPSCQueue T Capacity) := by
    refine ⟨h1, ?_⟩
    show t < Capacity
    split at ht <;> omega
  have hs2 := size_eq h wf2
  simp only [] at hs2
  have hsz : size ({ q with buffer_ := Function.update q.buffer_ q.tail_ item, tail_ := t } :
      SPSCQueue T Capacity) = size q + 1 := by
    split at ht <;> split at hs <;> split at hs2 <;> omega
  refine ⟨rfl, wf2, hsz, ?_⟩
  unfold contents
  rw [hsz, List.range_succ, List.map_append]
  congr 1
  · apply List.map_congr_left
    intro i hi
    rw [List.mem_range] at hi
    simp only []
    rw [Function.update_noteq]
    rw [mod_of_lt_two_mul (by split at hs <;> omega)]
    split at ht <;> split at hs <;> split <;> omega
  · simp only [List.map_cons, List.map_nil]
    have e : (q.head_ + size q) % Capacity = q.tail_ := by
      rw [mod_of_lt_two_mul (by split at hs <;> omega)]
      split at hs <;> split <;> omega
    rw [e, Function.update_same]

/-- Effect of a pop on a queue that is not empty. -/
theorem pop_not_empty (h : Accepted Capacity) {q : SPSCQueue T Capacity} (wf : WF q)
    (he : empty q = false) :
    (pop q).1 = some (q.buffer_ q.head_) ∧ WF (pop q).2 ∧
      size q = size (pop q).2 + 1 ∧
      contents q = q.buffer_ q.head_ :: contents (pop q).2 := by
  have hC := h.pos
  have h1 := wf.1
  have h2 := wf.2
  have hs := size_eq h wf
  have hne : ¬ q.head_ = q.tail_ := by
    unfold empty at he
    simpa using he
  have hpop : pop q = (some (q.buffer_ q.head_), { q with
      head_ := size_add q.head_ 1 &&& index_mask Capacity }) := by
    unfold pop
    simp [hne]
  have hm := succ_and_mask h h1
  have hh := succ_and_mask_cases h h1
  generalize size_add q.head_ 1 &&& index_mask Capacity = hd at hpop hh hm
  rw [hpop]
  have wf2 : WF ({ q with head_ := hd } : SPSCQueue T Capacity) := by
    refine ⟨?_, h2⟩
    show hd < Capacity
    split at hh <;> omega
  have hs2 := size_eq h wf2
  simp only [] at hs2
  have hsz : size q = size ({ q with head_ := hd } : SPSCQueue T Capacity) + 1 := by
    split at hh <;> split at hs <;> split at hs2 <;> omega
  refine ⟨rfl, wf2, hsz, ?_⟩
  unfold contents
  rw [hsz, List.range_succ_eq_map, List.map_cons, List.map_map]
  congr 1
  · rw [Nat.add_zero, Nat.mod_eq_of_lt h1]
  · apply List.map_congr_left
    intro i _
    simp only [Function.comp]
    rw [hm, Nat.mod_add_mod]
    congr 2
    omega

end SPSCQueue

/-! ## Runs of whole calls -/

section RunLemmas

open SPSCQueue

variable {T : Type} {Capacity : Nat}

theorem contents_length (q : SPSCQueue T Capacity) : (contents q).length = size q := by
  simp [contents]

theorem contents_new (h : Accepted Capacity) (init : Nat → T) :
    contents (new init : SPSCQueue T Capacity) = [] := by
  have hs := size_eq h (wf_new h init)
  have e : size (new init : SPSCQueue T Capacity) = 0 := by
    rw [hs]
    simp [new]
  simp [contents, e]

/-- Every run from a well-formed state ends in a well-formed state, and the
records held at the start followed by the accepted ones are the delivered ones
followed by the records held at the end. -/
theorem runOps_contents (h : Accepted Capacity) :
    ∀ (ops : List (Op T)) (q : SPSCQueue T Capacity), WF q →
      WF (runOps q ops).2 ∧
      contents q ++ pushedValues ops (runOps q ops).1 =
        poppedValues (runOps q ops).1 ++ contents (runOps q ops).2 := by
  intro ops
  induction ops with
  | nil =>
    intro q wf
    exact ⟨wf, by simp [runOps, pushedValues, poppedValues]⟩
  | cons o os ih =>
    intro q wf
    cases o with
    | push item =>
      cases hf : full q with
      | true =>
        have e := push_full hf item
        obtain ⟨w, c⟩ := ih q wf
        simp only [runOps, exec, e, pushedValues, poppedValues]
        exact ⟨w, c⟩
      | false =>
        obtain ⟨h1, wf2, -, hc⟩ := push_not_full h wf hf item
        obtain ⟨w, c⟩ := ih (push q item).2 wf2
        simp only [runOps, exec, h1, pushedValues, poppedValues]
        refine ⟨w, ?_⟩
        rw [← c, hc]
        simp
    | pop =>
      cases he : empty q with
      | true =>
        have e := pop_empty he
        obtain ⟨w, c⟩ := ih q wf
        simp only [runOps, exec, e, pushedValues, poppedValues]
        exact ⟨w, c⟩
      | false =>
        obtain ⟨h1, wf2, -, hc⟩ := pop_not_empty h wf he
        obtain ⟨w, c⟩ := ih (pop q).2 wf2
        simp only [runOps, exec, h1, pushedValues, poppedValues]
        refine ⟨w, ?_⟩
        rw [hc, List.cons_append, c]
        simp

/-- Counting form of the run invariant. -/
theorem runOps_size (h : Accepted Capacity) :
    ∀ (ops : List (Op T)) (q : SPSCQueue T Capacity), WF q →
      size q + pushCount (runOps q ops).1 =
        popCount (runOps q ops).1 + size (runOps q ops).2 := by
  intro ops
  induction ops with
  | nil =>
    intro q _
    simp [runOps, pushCount, popCount]
  | cons o os ih =>
    intro q wf
    cases o with
    | push item =>
      cases hf : full q with
      | true =>
        have e := push_full hf item
        have c := ih q wf
        simp only [runOps, exec, e, pushCount, popCount]
        exact c
      | false =>
        obtain ⟨h1, wf2, hs, -⟩ := push_not_full h wf hf item
        have c := ih (push q item).2 wf2
        simp only [runOps, exec, h1, pushCount, popCount]
        omega
    | pop =>
      cases he : empty q with
      | true =>
        have e := pop_empty he
        have c := ih q wf
        simp only [runOps, exec, e, pushCount, popCount]
        exact c
      | false =>
        obtain ⟨h1, wf2, hs, -⟩ := pop_not_empty h wf he
        have c := ih (pop q).2 wf2
        simp only [runOps, exec, h1, pushCount, popCount]
        omega

/-- Pushing onto a queue with enough room: every push is accepted and the
records are appended to the ones held. -/
theorem runOps_push_all (h : Accepted Capacity) :
    ∀ (xs : List T) (q : SPSCQueue T Capacity), WF q → size q + xs.length < Capacity →
      (runOps q (xs.map Op.push)).1 = xs.map (fun _ => OpResult.pushed true) ∧
      WF (runOps q (xs.map Op.push)).2 ∧
      size (runOps q (xs.map Op.push)).2 = size q + xs.length ∧
      contents (runOps q (xs.map Op.push)).2 = contents q ++ xs := by
  intro xs
  induction xs with
  | nil =>
    intro q wf _
    simp [runOps, wf]
  | cons x xs ih =>
    intro q wf hlen
    rw [List.length_cons] at hlen
    have hf : full q = false := by
      cases hfull : full q with
      | false => rfl
      | true =>
        have := (full_iff_size h wf).mp hfull
        omega
    obtain ⟨h1, wf2, hs, hc⟩ := push_not_full h wf hf x
    obtain ⟨r1, r2, r3, r4⟩ := ih (push q x).2 wf2 (by omega)
    simp only [List.map_cons, runOps, exec, h1, List.length_cons]
    refine ⟨by rw [r1], r2, by rw [r3, hs]; omega, ?_⟩
    rw [r4, hc]
    simp

/-- Popping as many times as the queue holds records returns them oldest first
and leaves the queue empty. -/
theorem runOps_pop_all (h : Accepted Capacity) :
    ∀ (n : Nat) (q : SPSCQueue T Capacity), WF q → size q = n →
      (runOps q (List.replicate n Op.pop)).1 =
        (contents q).map (fun x => OpResult.popped (some x)) ∧
      empty (runOps q (List.replicate n Op.pop)).2 = true := by
  intro n
  induction n with
  | zero =>
    intro q wf hs
    have hc : contents q = [] := List.eq_nil_of_length_eq_zero (by rw [contents_length, hs])
    simp [runOps, hc, (empty_iff_size h wf).mpr hs]
  | succ n ih =>
    intro q wf hs
    have he : empty q = false := by
      cases hemp : empty q with
      | false => rfl
      | true =>
        have := (empty_iff_size h wf).mp hemp
        omega
    obtain ⟨h1, wf2, hs2, hc⟩ := pop_not_empty h wf he
    obtain ⟨r1, r2⟩ := ih (pop q).2 wf2 (by omega)
    simp only [List.replicate_succ, runOps, exec, h1]
    refine ⟨?_, r2⟩
    rw [r1, hc]
    simp

/-- Queries can be dropped from a call sequence: the mutating calls return the
same results and end in the same state. -/
theorem runCalls_opsOf :
    ∀ (cs : List (Call T)) (q : SPSCQueue T Capacity),
      opResultsOf (runCalls q cs).1 = (runOps q (opsOf cs)).1 ∧
      (runCalls q cs).2 = (runOps q (opsOf cs)).2 := by
  intro cs
  induction cs with
  | nil =>
    intro q
    simp [runCalls, runOps, opsOf, opResultsOf]
  | cons c cs ih =>
    intro q
    cases c with
    | op o =>
      obtain ⟨r1, r2⟩ := ih (exec q o).2
      simp only [runCalls, call, opsOf, opResultsOf, runOps]
      exact ⟨by rw [r1], r2⟩
    | query k =>
      have hk : (ask q k).2 = q := by
        cases k <;> rfl
      obtain ⟨r1, r2⟩ := ih q
      simp only [runCalls, call, opsOf, opResultsOf, hk]
      exact ⟨r1, r2⟩

/-- A sequence of queries alone leaves the state as it was. -/
theorem runCalls_queries (q : SPSCQueue T Capacity) (ks : List Query) :
    (runCalls q (ks.map Call.query)).2 = q := by
  have e : opsOf (ks.map (Call.query : Query → Call T)) = [] := by
    induction ks with
    | nil => rfl
    | cons k ks ih => simpa [opsOf] using ih
  rw [(runCalls_opsOf (ks.map Call.query) q).2, e]
  rfl

end RunLemmas

/-! ## The claims -/

section Claims

open SPSCQueue

variable {T : Type} {Capacity : Nat}

theorem Reachable.wf (h : Accepted Capacity) {q : SPSCQueue T Capacity} (hr : Reachable q) :
    WF q := by
  obtain ⟨init, ops, rfl⟩ := hr
  exact (runOps_contents h ops _ (wf_new h init)).1

/-- C1, FIFO order: for a power-of-two `Capacity ≥ 2` and any sequence of whole
`push`/`pop` calls on a newly constructed queue, the accepted values are the
delivered values followed by the records still held; so the delivered values
are a prefix of the accepted ones, and when the queue is `empty()` the two
sequences are equal. -/
theorem fifo_order (hacc : Accepted Capacity) (_h2 : 2 ≤ Capacity) (init : Nat → T)
    (ops : List (Op T)) :
    pushedValues ops (runOps (new init : SPSCQueue T Capacity) ops).1 =
        poppedValues (runOps (new init : SPSCQueue T Capacity) ops).1 ++
          contents (runOps (new init : SPSCQueue T Capacity) ops).2 ∧
      poppedValues (runOps (new init : SPSCQueue T Capacity) ops).1 <+:
        pushedValues ops (runOps (new init : SPSCQueue T Capacity) ops).1 ∧
      (empty (runOps (new init : SPSCQueue T Capacity) ops).2 = true →
        poppedValues (runOps (new init : SPSCQueue T Capacity) ops).1 =
          pushedValues ops (runOps (new init : SPSCQueue T Capacity) ops).1) := by
  obtain ⟨wf, hc⟩ := runOps_contents hacc ops (new init : SPSCQueue T Capacity) (wf_new hacc init)
  rw [contents_new hacc, List.nil_append] at hc
  refine ⟨hc, ⟨_, hc.symm⟩, ?_⟩
  intro he
  have hz := (empty_iff_size hacc wf).mp he
  have hnil : contents (runOps (new init : SPSCQueue T Capacity) ops).2 = [] :=
    List.eq_nil_of_length_eq_zero (by rw [contents_length, hz])
  rw [hc, hnil, List.append_nil]

/-- C1 at a concrete input: capacity 4 and a run in which pushes and pops alternate. -/
theorem fifo_order_witness :
    Accepted 4 ∧ 2 ≤ 4 ∧
      (pushedValues [Op.push 1, Op.push 2, Op.pop, Op.push 3, Op.pop, Op.pop]
          (runOps (new (fun _ => 0) : SPSCQueue Nat 4)
            [Op.push 1, Op.push 2, Op.pop, Op.push 3, Op.pop, Op.pop]).1 =
        poppedValues (runOps (new (fun _ => 0) : SPSCQueue Nat 4)
            [Op.push 1, Op.push 2, Op.pop, Op.push 3, Op.pop, Op.pop]).1 ++
          contents (runOps (new (fun _ => 0) : SPSCQueue Nat 4)
            [Op.push 1, Op.push 2, Op.pop, Op.push 3, Op.pop, Op.pop]).2 ∧
      poppedValues (runOps (new (fun _ => 0) : SPSCQueue Nat 4)
            [Op.push 1, Op.push 2, Op.pop, Op.push 3, Op.pop, Op.pop]).1 <+:
        pushedValues [Op.push 1, Op.push 2, Op.pop, Op.push 3, Op.pop, Op.pop]
          (runOps (new (fun _ => 0) : SPSCQueue Nat 4)
            [Op.push 1, Op.push 2, Op.pop, Op.push 3, Op.pop, Op.pop]).1 ∧
      (empty (runOps (new (fun _ => 0) : SPSCQueue Nat 4)
            [Op.push 1, Op.push 2, Op.pop, Op.push 3, Op.pop, Op.pop]).2 = true →
        poppedValues (runOps (new (fun _ => 0) : SPSCQueue Nat 4)
            [Op.push 1, Op.push 2, Op.pop, Op.push 3, Op.pop, Op.pop]).1 =
          pushedValues [Op.push 1, Op.push 2, Op.pop, Op.push 3, Op.pop, Op.pop]
            (runOps (new (fun _ => 0) : SPSCQueue Nat 4)
              [Op.push 1, Op.push 2, Op.pop, Op.push 3, Op.pop, Op.pop]).1)) :=
  ⟨by decide, by decide, fifo_order (by decide) (by decide) _ _⟩

/-- C2, usable capacity is `Capacity - 1`: for a power-of-two `Capacity` and a
list of `Capacity - 1` records, pushing them in turn onto a newly constructed
queue returns `true` each time and leaves the queue `full()`; one further push
returns `false` and leaves the state as it was; the following `Capacity - 1`
pops return the records in push order. -/
theorem usable_capacity (hacc : Accepted Capacity) (init : Nat → T) (xs : List T)
    (hlen : xs.length = Capacity - 1) (extra : T) :
    (runOps (new init : SPSCQueue T Capacity) (xs.map Op.push)).1 =
        xs.map (fun _ => OpResult.pushed true) ∧
      full (runOps (new init : SPSCQueue T Capacity) (xs.map Op.push)).2 = true ∧
      push (runOps (new init : SPSCQueue T Capacity) (xs.map Op.push)).2 extra =
        (false, (runOps (new init : SPSCQueue T Capacity) (xs.map Op.push)).2) ∧
      (runOps (push (runOps (new init : SPSCQueue T Capacity) (xs.map Op.push)).2 extra).2
          (List.replicate (Capacity - 1) Op.pop)).1 =
        xs.map (fun x => OpResult.popped (some x)) := by
  have hpos := hacc.pos
  have wf0 := wf_new hacc init
  have hs0 : size (new init : SPSCQueue T Capacity) = 0 := by
    rw [← contents_length, contents_new hacc]
    rfl
  obtain ⟨r1, wf1, hs1, hc1⟩ :=
    runOps_push_all hacc xs (new init : SPSCQueue T Capacity) wf0 (by omega)
  rw [hs0, Nat.zero_add, hlen] at hs1
  rw [contents_new hacc, List.nil_append] at hc1
  have hfull := (full_iff_size hacc wf1).mpr hs1
  have hpush := push_full hfull extra
  refine ⟨r1, hfull, hpush, ?_⟩
  rw [hpush]
  rw [(runOps_pop_all hacc (Capacity - 1) _ wf1 hs1).1, hc1]

/-- C2 at a concrete input: capacity 4 filled with three records. -/
theorem usable_capacity_witness :
    Accepted 4 ∧ [10, 20, 30].length = 4 - 1 ∧
      ((runOps (new (fun _ => 0) : SPSCQueue Nat 4) ([10, 20, 30].map Op.push)).1 =
        [10, 20, 30].map (fun _ => OpResult.pushed true) ∧
      full (runOps (new (fun _ => 0) : SPSCQueue Nat 4) ([10, 20, 30].map Op.push)).2 = true ∧
      push (runOps (new (fun _ => 0) : SPSCQueue Nat 4) ([10, 20, 30].map Op.push)).2 999 =
        (false, (runOps (new (fun _ => 0) : SPSCQueue Nat 4) ([10, 20, 30].map Op.push)).2) ∧
      (runOps (push (runOps (new (fun _ => 0) : SPSCQueue Nat 4)
            ([10, 20, 30].map Op.push)).2 999).2
          (List.replicate (4 - 1) Op.pop)).1 =
        [10, 20, 30].map (fun x => OpResult.popped (some x))) :=
  ⟨by decide, by decide, usable_capacity (by decide) _ _ (by decide) _⟩

/-- C3, push on a full buffer has no side effect: in every state, `push`
returns `false` exactly when `full()` is true, and when it returns `false` the
state after the call is the state before it. -/
theorem push_full_no_side_effect (q : SPSCQueue T Capacity) (item : T) :
    ((push q item).1 = false ↔ full q = true) ∧
      ((push q item).1 = false → (push q item).2 = q) := by
  unfold push full
  by_cases hc : (size_add q.tail_ 1 &&& index_mask Capacity) = q.head_
  · simp [hc]
  · simp [hc]

/-- C4, pop on an empty buffer has no side effect: in every state, `pop`
returns no value exactly when `empty()` is true, and when it returns no value
the state after the call is the state before it. -/
theorem pop_empty_no_side_effect (q : SPSCQueue T Capacity) :
    ((pop q).1 = none ↔ empty q = true) ∧ ((pop q).1 = none → (pop q).2 = q) := by
  unfold pop empty
  by_cases hc : q.head_ = q.tail_
  · simp [hc]
  · simp [hc]

/-- C5 as stated fails at `Capacity = 1`, which `is_power_of_two` accepts: the
newly constructed queue reports `full()`. -/
theorem new_queue_full_capacity_one :
    Accepted 1 ∧ full (new (fun _ => 0) : SPSCQueue Nat 1) = true ∧
      ¬ (empty (new (fun _ => 0) : SPSCQueue Nat 1) = true ∧
          full (new (fun _ => 0) : SPSCQueue Nat 1) = false ∧
          (pop (new (fun _ => 0) : SPSCQueue Nat 1)).1 = none) := by
  decide

/-- C5 amended, empty-queue contract: a newly constructed queue of any accepted
capacity reports `empty()`, and `pop()` returns no value and leaves it as it
was; `full()` is false when `Capacity ≥ 2` and true when `Capacity = 1`. -/
theorem new_queue_contract (hacc : Accepted Capacity) (init : Nat → T) :
    empty (new init : SPSCQueue T Capacity) = true ∧
      pop (new init : SPSCQueue T Capacity) = (none, new init) ∧
      (2 ≤ Capacity → full (new init : SPSCQueue T Capacity) = false) ∧
      (Capacity = 1 → full (new init : SPSCQueue T Capacity) = true) := by
  have wf0 := wf_new hacc init
  have hs0 : size (new init : SPSCQueue T Capacity) = 0 := by
    rw [← contents_length, contents_new hacc]
    rfl
  have he : empty (new init : SPSCQueue T Capacity) = true := rfl
  refine ⟨he, pop_empty he, ?_, ?_⟩
  · intro h2
    cases hf : full (new init : SPSCQueue T Capacity) with
    | false => rfl
    | true =>
      have := (full_iff_size hacc wf0).mp hf
      omega
  · intro h1
    apply (full_iff_size hacc wf0).mpr
    omega

/-- C5 amended, at the capacity 8 of the test `Empty queue`. -/
theorem new_queue_contract_witness :
    Accepted 8 ∧
      (empty (new (fun _ => 0) : SPSCQueue Nat 8) = true ∧
        pop (new (fun _ => 0) : SPSCQueue Nat 8) = (none, new (fun _ => 0)) ∧
        (2 ≤ 8 → full (new (fun _ => 0) : SPSCQueue Nat 8) = false) ∧
        (8 = 1 → full (new (fun _ => 0) : SPSCQueue Nat 8) = true)) :=
  ⟨by decide, new_queue_contract (by decide) _⟩

/-- C6, round-trip fidelity: for a power-of-two `Capacity ≥ 2`, in every
reachable state in which `empty()` holds and for every record `x`, `push(x)`
returns `true`, the next `pop()` returns `x`, and `empty()` holds again. The
record type is arbitrary; `Order` is one instance. -/
theorem round_trip (hacc : Accepted Capacity) (h2 : 2 ≤ Capacity)
    {q : SPSCQueue T Capacity} (hr : Reachable q) (he : empty q = true) (x : T) :
    (push q x).1 = true ∧ (pop (push q x).2).1 = some x ∧
      empty (pop (push q x).2).2 = true := by
  have wf := hr.wf hacc
  have hs := (empty_iff_size hacc wf).mp he
  have hf : full q = false := by
    cases hfull : full q with
    | false => rfl
    | true =>
      have := (full_iff_size hacc wf).mp hfull
      omega
  obtain ⟨p1, wf1, hs1, hc1⟩ := push_not_full hacc wf hf x
  have hne : empty (push q x).2 = false := by
    cases hemp : empty (push q x).2 with
    | false => rfl
    | true =>
      have := (empty_iff_size hacc wf1).mp hemp
      omega
  obtain ⟨p2, wf2, hs2, hc2⟩ := pop_not_empty hacc wf1 hne
  have hnil : contents q = [] := List.eq_nil_of_length_eq_zero (by rw [contents_length, hs])
  rw [hc1, hnil, List.nil_append] at hc2
  have hx : (push q x).2.buffer_ (push q x).2.head_ = x := by
    have := List.head_eq_of_cons_eq hc2
    exact this.symm
  refine ⟨p1, by rw [p2, hx], ?_⟩
  apply (empty_iff_size hacc wf2).mpr
  omega

/-- C6 at a concrete input: the record `buy_order` through a used `SPSCQueue<Order, 16>`. -/
theorem round_trip_witness :
    Accepted 16 ∧ 2 ≤ 16 ∧ Reachable used_order_queue ∧ empty used_order_queue = true ∧
      ((push used_order_queue buy_order).1 = true ∧
        (pop (push used_order_queue buy_order).2).1 = some buy_order ∧
        empty (pop (push used_order_queue buy_order).2).2 = true) :=
  ⟨by decide, by decide, ⟨_, _, rfl⟩, by decide,
    round_trip (by decide) (by decide) ⟨_, _, rfl⟩ (by decide) buy_order⟩

/-- C7, `size()` is exact without concurrent mutation: in every state reached
from a newly constructed queue by whole `push`/`pop` calls, `size()` is the
number of pushes that returned `true` minus the number of pops that returned a
value, and lies between `0` and `Capacity - 1`. -/
theorem size_exact (hacc : Accepted Capacity) (init : Nat → T) (ops : List (Op T)) :
    popCount (runOps (new init : SPSCQueue T Capacity) ops).1 ≤
        pushCount (runOps (new init : SPSCQueue T Capacity) ops).1 ∧
      size (runOps (new init : SPSCQueue T Capacity) ops).2 =
        pushCount (runOps (new init : SPSCQueue T Capacity) ops).1 -
          popCount (runOps (new init : SPSCQueue T Capacity) ops).1 ∧
      0 ≤ size (runOps (new init : SPSCQueue T Capacity) ops).2 ∧
      size (runOps (new init : SPSCQueue T Capacity) ops).2 ≤ Capacity - 1 := by
  have wf0 := wf_new hacc init
  have hs0 : size (new init : SPSCQueue T Capacity) = 0 := by
    rw [← contents_length, contents_new hacc]
    rfl
  have hc := runOps_size hacc ops (new init : SPSCQueue T Capacity) wf0
  have hlt := size_lt hacc (runOps_contents hacc ops _ wf0).1
  rw [hs0] at hc
  omega

/-- C7 at a concrete input: capacity 4 and a run with a refused push and a refused pop. -/
theorem size_exact_witness :
    Accepted 4 ∧
      (popCount (runOps (new (fun _ => 0) : SPSCQueue Nat 4)
          [Op.pop, Op.push 1, Op.push 2, Op.push 3, Op.push 4, Op.pop, Op.push 5]).1 ≤
        pushCount (runOps (new (fun _ => 0) : SPSCQueue Nat 4)
          [Op.pop, Op.push 1, Op.push 2, Op.push 3, Op.push 4, Op.pop, Op.push 5]).1 ∧
      size (runOps (new (fun _ => 0) : SPSCQueue Nat 4)
          [Op.pop, Op.push 1, Op.push 2, Op.push 3, Op.push 4, Op.pop, Op.push 5]).2 =
        pushCount (runOps (new (fun _ => 0) : SPSCQueue Nat 4)
          [Op.pop, Op.push 1, Op.push 2, Op.push 3, Op.push 4, Op.pop, Op.push 5]).1 -
          popCount (runOps (new (fun _ => 0) : SPSCQueue Nat 4)
            [Op.pop, Op.push 1, Op.push 2, Op.push 3, Op.push 4, Op.pop, Op.push 5]).1 ∧
      0 ≤ size (runOps (new (fun _ => 0) : SPSCQueue Nat 4)
          [Op.pop, Op.push 1, Op.push 2, Op.push 3, Op.push 4, Op.pop, Op.push 5]).2 ∧
      size (runOps (new (fun _ => 0) : SPSCQueue Nat 4)
          [Op.pop, Op.push 1, Op.push 2, Op.push 3, Op.push 4, Op.pop, Op.push 5]).2 ≤ 4 - 1) :=
  ⟨by decide, size_exact (by decide) _ _⟩

/-- C8, capacity check: for every `size_t` value `x`, `is_power_of_two(x)` is
true exactly when `x = 2^k` for some `k`; it is false for `0` and for every
value with more than one bit set. -/
theorem is_power_of_two_spec (x : Nat) (hx : x < SIZE_MOD) :
    (is_power_of_two x = true ↔ ∃ k, x = 2 ^ k) ∧
      is_power_of_two 0 = false ∧
      (∀ i j, i ≠ j → x.testBit i = true → x.testBit j = true →
        is_power_of_two x = false) := by
  refine ⟨is_power_of_two_iff hx, rfl, ?_⟩
  intro i j hij hi hj
  cases hp : is_power_of_two x with
  | false => rfl
  | true =>
    obtain ⟨k, rfl⟩ := (is_power_of_two_iff hx).mp hp
    rw [Nat.testBit_two_pow] at hi hj
    simp only [decide_eq_true_eq] at hi hj
    exact absurd (hi.symm.trans hj) hij

/-- C8 at the concrete input 12, which has two bits set. -/
theorem is_power_of_two_spec_witness :
    12 < SIZE_MOD ∧
      ((is_power_of_two 12 = true ↔ ∃ k, 12 = 2 ^ k) ∧
        is_power_of_two 0 = false ∧
        (∀ i j, i ≠ j → Nat.testBit 12 i = true → Nat.testBit 12 j = true →
          is_power_of_two 12 = false)) :=
  ⟨by decide, is_power_of_two_spec 12 (by decide)⟩

/-- C9, queries are side-effect free: in every state, any sequence of
`empty()`, `full()` and `size()` calls leaves the state as it was, so a following
sequence of `push`/`pop` calls runs as if the queries had not been made; more
generally, dropping the queries from any call sequence changes neither the
results of its `push`/`pop` calls nor its final state. -/
theorem queries_side_effect_free (q : SPSCQueue T Capacity) (ks : List Query)
    (ops : List (Op T)) (cs : List (Call T)) :
    (runCalls q (ks.map Call.query)).2 = q ∧
      runOps (runCalls q (ks.map (Call.query : Query → Call T))).2 ops = runOps q ops ∧
      opResultsOf (runCalls q cs).1 = (runOps q (opsOf cs)).1 ∧
      (runCalls q cs).2 = (runOps q (opsOf cs)).2 := by
  have h1 := runCalls_queries q ks
  exact ⟨h1, by rw [h1], runCalls_opsOf cs q⟩

/-- C12, index invariant: in every state reached from a newly constructed
queue by whole `push`/`pop` calls, both stored indices are below `Capacity`, and
every index at which a following `push` or `pop` addresses `buffer_` (the written
slot, the read slot and the prefetched slots) is below `Capacity`. -/
theorem index_invariant (hacc : Accepted Capacity) {q : SPSCQueue T Capacity}
    (hr : Reachable q) :
    q.head_ < Capacity ∧ q.tail_ < Capacity ∧
      (∀ i ∈ push_slots q, i < Capacity) ∧ (∀ i ∈ pop_slots q, i < Capacity) ∧
      size_add q.head_ 1 &&& index_mask Capacity < Capacity ∧
      size_add q.tail_ 1 &&& index_mask Capacity < Capacity := by
  have wf := hr.wf hacc
  have hpos := hacc.pos
  have hh : size_add q.head_ 1 &&& index_mask Capacity < Capacity := by
    rw [succ_and_mask_any hacc]
    exact Nat.mod_lt _ hpos
  have ht : size_add q.tail_ 1 &&& index_mask Capacity < Capacity := by
    rw [succ_and_mask_any hacc]
    exact Nat.mod_lt _ hpos
  refine ⟨wf.1, wf.2, ?_, ?_, hh, ht⟩
  · intro i hi
    unfold push_slots at hi
    simp only [] at hi
    split at hi
    · simp at hi
    · simp only [List.mem_cons, List.mem_singleton, List.mem_nil_iff, or_false] at hi
      rcases hi with rfl | rfl
      · exact ht
      · exact wf.2
  · intro i hi
    unfold pop_slots at hi
    simp only [] at hi
    split at hi
    · simp at hi
    · simp only [List.mem_cons, List.mem_singleton, List.mem_nil_iff, or_false] at hi
      rcases hi with rfl | rfl
      · exact hh
      · exact wf.1

/-- C12 at a concrete input: an `SPSCQueue<int, 4>` whose indices have wrapped. -/
theorem index_invariant_witness :
    Accepted 4 ∧
      Reachable (runOps (new (fun _ => 0) : SPSCQueue Nat 4)
        [Op.push 1, Op.push 2, Op.push 3, Op.pop, Op.pop, Op.push 4]).2 ∧
      ((runOps (new (fun _ => 0) : SPSCQueue Nat 4)
        [Op.push 1, Op.push 2, Op.push 3, Op.pop, Op.pop, Op.push 4]).2.head_ < 4 ∧
      (runOps (new (fun _ => 0) : SPSCQueue Nat 4)
        [Op.push 1, Op.push 2, Op.push 3, Op.pop, Op.pop, Op.push 4]).2.tail_ < 4 ∧
      (∀ i ∈ push_slots (runOps (new (fun _ => 0) : SPSCQueue Nat 4)
        [Op.push 1, Op.push 2, Op.push 3, Op.pop, Op.pop, Op.push 4]).2, i < 4) ∧
      (∀ i ∈ pop_slots (runOps (new (fun _ => 0) : SPSCQueue Nat 4)
        [Op.push 1, Op.push 2, Op.push 3, Op.pop, Op.pop, Op.push 4]).2, i < 4) ∧
      size_add (runOps (new (fun _ => 0) : SPSCQueue Nat 4)
        [Op.push 1, Op.push 2, Op.push 3, Op.pop, Op.pop, Op.push 4]).2.head_ 1 &&&
          index_mask 4 < 4 ∧
      size_add (runOps (new (fun _ => 0) : SPSCQueue Nat 4)
        [Op.push 1, Op.push 2, Op.push 3, Op.pop, Op.pop, Op.push 4]).2.tail_ 1 &&&
          index_mask 4 < 4) :=
  ⟨by decide, ⟨_, _, rfl⟩, index_invariant (by decide) ⟨_, _, rfl⟩⟩

/-- C13, bitmask wraparound equals modulo: for a power-of-two `Capacity` and an
index `i < Capacity`, `(i + 1) & (Capacity - 1)` is `(i + 1) mod Capacity`;
hence `full()` is true exactly when `(tail + 1) mod Capacity == head`, `empty()`
exactly when `head == tail`, and a successful `push` or `pop` advances its index
by one modulo `Capacity`. -/
theorem mask_eq_mod (hacc : Accepted Capacity) (i : Nat) (hi : i < Capacity)
    (q : SPSCQueue T Capacity) (item : T) :
    (i + 1) &&& (Capacity - 1) = (i + 1) % Capacity ∧
      size_add i 1 &&& index_mask Capacity = (i + 1) % Capacity ∧
      (full q = true ↔ (q.tail_ + 1) % Capacity = q.head_) ∧
      (empty q = true ↔ q.head_ = q.tail_) ∧
      ((push q item).1 = true → (push q item).2.tail_ = (q.tail_ + 1) % Capacity) ∧
      ((pop q).1 ≠ none → (pop q).2.head_ = (q.head_ + 1) % Capacity) := by
  refine ⟨?_, succ_and_mask hacc hi, ?_, ?_, ?_, ?_⟩
  · obtain ⟨k, -, rfl⟩ := hacc.exists_pow
    exact Nat.and_pow_two_sub_one_eq_mod _ _
  · unfold full
    rw [succ_and_mask_any hacc, beq_iff_eq]
  · unfold empty
    rw [beq_iff_eq]
  · unfold push
    simp only []
    rw [succ_and_mask_any hacc]
    split
    · intro hf
      cases hf
    · intro _
      rfl
  · unfold pop
    simp only []
    split
    · intro hn
      exact absurd rfl hn
    · intro _
      exact succ_and_mask_any hacc _

/-- C13 at a concrete input: capacity 8, the last index 7, and a queue whose
`tail_` is about to wrap. -/
theorem mask_eq_mod_witness :
    Accepted 8 ∧ 7 < 8 ∧
      ((7 + 1) &&& (8 - 1) = (7 + 1) % 8 ∧
      size_add 7 1 &&& index_mask 8 = (7 + 1) % 8 ∧
      (full (SPSCQueue.mk (fun _ => 0) 3 7 : SPSCQueue Nat 8) = true ↔
        ((SPSCQueue.mk (fun _ => 0) 3 7 : SPSCQueue Nat 8).tail_ + 1) % 8 =
          (SPSCQueue.mk (fun _ => 0) 3 7 : SPSCQueue Nat 8).head_) ∧
      (empty (SPSCQueue.mk (fun _ => 0) 3 7 : SPSCQueue Nat 8) = true ↔
        (SPSCQueue.mk (fun _ => 0) 3 7 : SPSCQueue Nat 8).head_ =
          (SPSCQueue.mk (fun _ => 0) 3 7 : SPSCQueue Nat 8).tail_) ∧
      ((push (SPSCQueue.mk (fun _ => 0) 3 7 : SPSCQueue Nat 8) 42).1 = true →
        (push (SPSCQueue.mk (fun _ => 0) 3 7 : SPSCQueue Nat 8) 42).2.tail_ =
          ((SPSCQueue.mk (fun _ => 0) 3 7 : SPSCQueue Nat 8).tail_ + 1) % 8) ∧
      ((pop (SPSCQueue.mk (fun _ => 0) 3 7 : SPSCQueue Nat 8)).1 ≠ none →
        (pop (SPSCQueue.mk (fun _ => 0) 3 7 : SPSCQueue Nat 8)).2.head_ =
          ((SPSCQueue.mk (fun _ => 0) 3 7 : SPSCQueue Nat 8).head_ + 1) % 8)) :=
  ⟨by decide, by decide, mask_eq_mod (by decide) 7 (by decide) _ 42⟩

/-- C14, `size()` arithmetic under unsigned wraparound: for a power-of-two
`Capacity` and indices `h, t < Capacity`, the value `((t - h) mod 2^64) &
(Capacity - 1)` computed by `size()` is `t - h` when `t ≥ h` and
`Capacity - (h - t)` when `t < h`. -/
theorem size_wraparound (hacc : Accepted Capacity) (buf : Nat → T) (h t : Nat)
    (hh : h < Capacity) (ht : t < Capacity) :
    size (SPSCQueue.mk buf h t : SPSCQueue T Capacity) =
        size_sub t h &&& (Capacity - 1) ∧
      (h ≤ t → size (SPSCQueue.mk buf h t : SPSCQueue T Capacity) = t - h) ∧
      (t < h → size (SPSCQueue.mk buf h t : SPSCQueue T Capacity) = Capacity - (h - t)) := by
  have hs := size_eq hacc (q := (SPSCQueue.mk buf h t : SPSCQueue T Capacity)) ⟨hh, ht⟩
  simp only [] at hs
  refine ⟨?_, ?_, ?_⟩
  · unfold size
    rw [index_mask_eq hacc]
  · intro hle
    rw [hs, if_pos hle]
  · intro hlt
    rw [hs, if_neg (by omega)]
    omega

/-- C14 at a concrete input: capacity 8 with `tail_` wrapped below `head_`. -/
theorem size_wraparound_witness :
    Accepted 8 ∧ 6 < 8 ∧ 1 < 8 ∧
      (size (SPSCQueue.mk (fun _ => 0) 6 1 : SPSCQueue Nat 8) = size_sub 1 6 &&& (8 - 1) ∧
      (6 ≤ 1 → size (SPSCQueue.mk (fun _ => 0) 6 1 : SPSCQueue Nat 8) = 1 - 6) ∧
      (1 < 6 → size (SPSCQueue.mk (fun _ => 0) 6 1 : SPSCQueue Nat 8) = 8 - (6 - 1))) :=
  ⟨by decide, by decide, by decide,
    size_wraparound (by decide) (fun _ => 0) 6 1 (by decide) (by decide)⟩

/-- C15, successful push postcondition and frame: in a state with `head_`,
`tail_` below `Capacity` in which `full()` is false, `push(x)` returns `true`,
slot `tail_` holds `x` afterwards, every other slot is unchanged, the new
`tail_` is `(tail_ + 1) & index_mask`, and `head_` is unchanged; `push` never
modifies `head_`, whatever the state and the outcome. -/
theorem push_postcondition (hacc : Accepted Capacity) (q : SPSCQueue T Capacity)
    (wf : WF q) (hf : full q = false) (x : T) :
    (push q x).1 = true ∧
      (push q x).2.buffer_ q.tail_ = x ∧
      (∀ i, i ≠ q.tail_ → (push q x).2.buffer_ i = q.buffer_ i) ∧
      (push q x).2.tail_ = (q.tail_ + 1) &&& index_mask Capacity ∧
      (push q x).2.head_ = q.head_ ∧
      (∀ (s : SPSCQueue T Capacity) (y : T), (push s y).2.head_ = s.head_) := by
  have hne : ¬ (size_add q.tail_ 1 &&& index_mask Capacity) = q.head_ := by
    unfold full at hf
    simpa using hf
  have hlt : q.tail_ + 1 < SIZE_MOD := lt_of_le_of_lt (Nat.succ_le_of_lt wf.2) hacc.1
  have hpush : push q x = (true, { q with
      buffer_ := Function.update q.buffer_ q.tail_ x,
      tail_ := size_add q.tail_ 1 &&& index_mask Capacity }) := by
    unfold push
    simp [hne]
  refine ⟨by rw [hpush], ?_, ?_, ?_, by rw [hpush], ?_⟩
  · rw [hpush]
    exact Function.update_same _ _ _
  · intro i hi
    rw [hpush]
    exact Function.update_noteq hi _ _
  · rw [hpush, size_add_one hlt]
  · intro s y
    unfold push
    simp only []
    split <;> rfl

/-- C15 at a concrete input: a push at the last slot of an `SPSCQueue<int, 8>`. -/
theorem push_postcondition_witness :
    Accepted 8 ∧ WF (SPSCQueue.mk (fun _ => 0) 3 7 : SPSCQueue Nat 8) ∧
      full (SPSCQueue.mk (fun _ => 0) 3 7 : SPSCQueue Nat 8) = false ∧
      ((push (SPSCQueue.mk (fun _ => 0) 3 7 : SPSCQueue Nat 8) 42).1 = true ∧
      (push (SPSCQueue.mk (fun _ => 0) 3 7 : SPSCQueue Nat 8) 42).2.buffer_
          (SPSCQueue.mk (fun _ => 0) 3 7 : SPSCQueue Nat 8).tail_ = 42 ∧
      (∀ i, i ≠ (SPSCQueue.mk (fun _ => 0) 3 7 : SPSCQueue Nat 8).tail_ →
        (push (SPSCQueue.mk (fun _ => 0) 3 7 : SPSCQueue Nat 8) 42).2.buffer_ i =
          (SPSCQueue.mk (fun _ => 0) 3 7 : SPSCQueue Nat 8).buffer_ i) ∧
      (push (SPSCQueue.mk (fun _ => 0) 3 7 : SPSCQueue Nat 8) 42).2.tail_ =
        ((SPSCQueue.mk (fun _ => 0) 3 7 : SPSCQueue Nat 8).tail_ + 1) &&& index_mask 8 ∧
      (push (SPSCQueue.mk (fun _ => 0) 3 7 : SPSCQueue Nat 8) 42).2.head_ =
        (SPSCQueue.mk (fun _ => 0) 3 7 : SPSCQueue Nat 8).head_ ∧
      (∀ (s : SPSCQueue Nat 8) (y : Nat), (push s y).2.head_ = s.head_)) :=
  ⟨by decide, ⟨by decide, by decide⟩, by decide,
    push_postcondition (by decide) _ ⟨by decide, by decide⟩ (by decide) 42⟩

/-- C16, successful pop postcondition and frame: in a state with `head_`,
`tail_` below `Capacity` in which `empty()` is false, `pop()` returns the record
stored in slot `head_`, the new `head_` is `(head_ + 1) & index_mask`, and
`tail_` and every slot (the one just read included) are unchanged; `pop` never
modifies `tail_` or any slot, whatever the state and the outcome. -/
theorem pop_postcondition (hacc : Accepted Capacity) (q : SPSCQueue T Capacity)
    (wf : WF q) (he : empty q = false) :
    (pop q).1 = some (q.buffer_ q.head_) ∧
      (pop q).2.head_ = (q.head_ + 1) &&& index_mask Capacity ∧
      (pop q).2.tail_ = q.tail_ ∧
      (pop q).2.buffer_ = q.buffer_ ∧
      (∀ s : SPSCQueue T Capacity,
        (pop s).2.tail_ = s.tail_ ∧ (pop s).2.buffer_ = s.buffer_) := by
  have hne : ¬ q.head_ = q.tail_ := by
    unfold empty at he
    simpa using he
  have hlt : q.head_ + 1 < SIZE_MOD := lt_of_le_of_lt (Nat.succ_le_of_lt wf.1) hacc.1
  have hpop : pop q = (some (q.buffer_ q.head_), { q with
      head_ := size_add q.head_ 1 &&& index_mask Capacity }) := by
    unfold pop
    simp [hne]
  refine ⟨by rw [hpop], by rw [hpop, size_add_one hlt], by rw [hpop], by rw [hpop], ?_⟩
  intro s
  unfold pop
  simp only []
  split <;> exact ⟨rfl, rfl⟩

/-- C16 at a concrete input: a pop at the last slot of an `SPSCQueue<int, 8>`. -/
theorem pop_postcondition_witness :
    Accepted 8 ∧ WF (SPSCQueue.mk (fun i => 10 * i) 7 2 : SPSCQueue Nat 8) ∧
      empty (SPSCQueue.mk (fun i => 10 * i) 7 2 : SPSCQueue Nat 8) = false ∧
      ((pop (SPSCQueue.mk (fun i => 10 * i) 7 2 : SPSCQueue Nat 8)).1 =
        some ((SPSCQueue.mk (fun i => 10 * i) 7 2 : SPSCQueue Nat 8).buffer_
          (SPSCQueue.mk (fun i => 10 * i) 7 2 : SPSCQueue Nat 8).head_) ∧
      (pop (SPSCQueue.mk (fun i => 10 * i) 7 2 : SPSCQueue Nat 8)).2.head_ =
        ((SPSCQueue.mk (fun i => 10 * i) 7 2 : SPSCQueue Nat 8).head_ + 1) &&& index_mask 8 ∧
      (pop (SPSCQueue.mk (fun i => 10 * i) 7 2 : SPSCQueue Nat 8)).2.tail_ =
        (SPSCQueue.mk (fun i => 10 * i) 7 2 : SPSCQueue Nat 8).tail_ ∧
      (pop (SPSCQueue.mk (fun i => 10 * i) 7 2 : SPSCQueue Nat 8)).2.buffer_ =
        (SPSCQueue.mk (fun i => 10 * i) 7 2 : SPSCQueue Nat 8).buffer_ ∧
      (∀ s : SPSCQueue Nat 8, (pop s).2.tail_ = s.tail_ ∧ (pop s).2.buffer_ = s.buffer_)) :=
  ⟨by decide, ⟨by decide, by decide⟩, by decide,
    pop_postcondition (by decide) _ ⟨by decide, by decide⟩ (by decide)⟩

/-- C17, the three queries agree: in every state reached from a newly
constructed queue by whole `push`/`pop` calls, `empty()` is true exactly when
`size() == 0` and `full()` is true exactly when `size() == Capacity - 1`; so for
`Capacity ≥ 2` they are never both true. -/
theorem queries_agree (hacc : Accepted Capacity) {q : SPSCQueue T Capacity}
    (hr : Reachable q) :
    (empty q = true ↔ size q = 0) ∧
      (full q = true ↔ size q = Capacity - 1) ∧
      (2 ≤ Capacity → ¬ (empty q = true ∧ full q = true)) := by
  have wf := hr.wf hacc
  have h1 := empty_iff_size hacc wf
  have h2 := full_iff_size hacc wf
  refine ⟨h1, h2, ?_⟩
  rintro hc ⟨he, hf⟩
  have := h1.mp he
  have := h2.mp hf
  omega

/-- C17 at a concrete input: a full `SPSCQueue<int, 4>`. -/
theorem queries_agree_witness :
    Accepted 4 ∧
      Reachable (runOps (new (fun _ => 0) : SPSCQueue Nat 4)
        [Op.push 1, Op.pop, Op.push 2, Op.push 3, Op.push 4]).2 ∧
      ((empty (runOps (new (fun _ => 0) : SPSCQueue Nat 4)
          [Op.push 1, Op.pop, Op.push 2, Op.push 3, Op.push 4]).2 = true ↔
        size (runOps (new (fun _ => 0) : SPSCQueue Nat 4)
          [Op.push 1, Op.pop, Op.push 2, Op.push 3, Op.push 4]).2 = 0) ∧
      (full (runOps (new (fun _ => 0) : SPSCQueue Nat 4)
          [Op.push 1, Op.pop, Op.push 2, Op.push 3, Op.push 4]).2 = true ↔
        size (runOps (new (fun _ => 0) : SPSCQueue Nat 4)
          [Op.push 1, Op.pop, Op.push 2, Op.push 3, Op.push 4]).2 = 4 - 1) ∧
      (2 ≤ 4 → ¬ (empty (runOps (new (fun _ => 0) : SPSCQueue Nat 4)
          [Op.push 1, Op.pop, Op.push 2, Op.push 3, Op.push 4]).2 = true ∧
        full (runOps (new (fun _ => 0) : SPSCQueue Nat 4)
          [Op.push 1, Op.pop, Op.push 2, Op.push 3, Op.push 4]).2 = true))) :=
  ⟨by decide, ⟨_, _, rfl⟩, queries_agree (by decide) ⟨_, _, rfl⟩⟩

/-- C18, degenerate capacity 1: `Capacity = 1` passes `is_power_of_two` and
has `index_mask` 0; in every reachable state of such a queue `head_` and
`tail_` are 0, every `push` returns `false`, `pop` returns no value, `size()` is
0, `empty()` and `full()` are both true, and the queue holds no record. -/
theorem capacity_one_degenerate {q : SPSCQueue T 1} (hr : Reachable q) :
    is_power_of_two 1 = true ∧ index_mask 1 = 0 ∧
      q.head_ = 0 ∧ q.tail_ = 0 ∧
      (∀ x : T, push q x = (false, q)) ∧
      pop q = (none, q) ∧
      size q = 0 ∧ empty q = true ∧ full q = true ∧ contents q = [] := by
  have hacc : Accepted 1 := by decide
  have wf := hr.wf hacc
  have hh : q.head_ = 0 := Nat.lt_one_iff.mp wf.1
  have ht : q.tail_ = 0 := Nat.lt_one_iff.mp wf.2
  have hs : size q = 0 := Nat.lt_one_iff.mp (size_lt hacc wf)
  have he : empty q = true := (empty_iff_size hacc wf).mpr hs
  have hf : full q = true := (full_iff_size hacc wf).mpr (by rw [hs])
  refine ⟨by decide, by decide, hh, ht, fun x => push_full hf x, pop_empty he, hs, he, hf, ?_⟩
  exact List.eq_nil_of_length_eq_zero (by rw [contents_length, hs])

/-- C18 at a concrete input: an `SPSCQueue<int, 1>` after some calls. -/
theorem capacity_one_degenerate_witness :
    Reachable (runOps (new (fun _ => 0) : SPSCQueue Nat 1) [Op.push 5, Op.pop, Op.push 6]).2 ∧
      (is_power_of_two 1 = true ∧ index_mask 1 = 0 ∧
      (runOps (new (fun _ => 0) : SPSCQueue Nat 1) [Op.push 5, Op.pop, Op.push 6]).2.head_ = 0 ∧
      (runOps (new (fun _ => 0) : SPSCQueue Nat 1) [Op.push 5, Op.pop, Op.push 6]).2.tail_ = 0 ∧
      (∀ x : Nat,
        push (runOps (new (fun _ => 0) : SPSCQueue Nat 1) [Op.push 5, Op.pop, Op.push 6]).2 x =
          (false,
            (runOps (new (fun _ => 0) : SPSCQueue Nat 1) [Op.push 5, Op.pop, Op.push 6]).2)) ∧
      pop (runOps (new (fun _ => 0) : SPSCQueue Nat 1) [Op.push 5, Op.pop, Op.push 6]).2 =
        (none, (runOps (new (fun _ => 0) : SPSCQueue Nat 1) [Op.push 5, Op.pop, Op.push 6]).2) ∧
      size (runOps (new (fun _ => 0) : SPSCQueue Nat 1) [Op.push 5, Op.pop, Op.push 6]).2 = 0 ∧
      empty (runOps (new (fun _ => 0) : SPSCQueue Nat 1)
        [Op.push 5, Op.pop, Op.push 6]).2 = true ∧
      full (runOps (new (fun _ => 0) : SPSCQueue Nat 1)
        [Op.push 5, Op.pop, Op.push 6]).2 = true ∧
      contents (runOps (new (fun _ => 0) : SPSCQueue Nat 1)
        [Op.push 5, Op.pop, Op.push 6]).2 = []) :=
  ⟨⟨_, _, rfl⟩, capacity_one_degenerate ⟨_, _, rfl⟩⟩

end Claims

end OMS

